import Mathlib

/-
Verification of uuid_migration_utils.py: a shallow embedding of its data
model and functions, followed by theorems settling the specified
properties.  The Django registry is embedded as an explicit snapshot
(a list of model descriptions carrying the relation metadata the source
reads through the model _meta API), and the generated migration is the
ordered list of abstract operations the source appends.
-/

/-- Python str.lower for the ASCII identifiers used as Django app, model
and field names (written on the underlying character list so that it
evaluates inside the kernel). -/
def lower (s : String) : String := ⟨s.data.map Char.toLower⟩

/-- Identity of a model: (app_label, object_name).  In Django this is the
model class itself; under the registry invariant that a pair resolves to
exactly one model, comparing keys is the same as comparing objects. -/
structure ModelKey where
  app : String
  name : String
deriving DecidableEq

/-- A concrete field of a model, as seen in model _meta.fields: its name,
whether it is relation-typed (field.is_relation), the model it references
(field.related_model, as a key), and its nullability (field.null). -/
structure RegField where
  name : String
  is_relation : Bool
  related : Option ModelKey
  null : Bool
deriving DecidableEq

/-- A many-to-many field of a model, as seen in model _meta.many_to_many:
its name, the referenced model (field.related_model), whether its join
table is framework-generated (field.remote_field.through._meta.auto_created)
and the key of the through model (field.remote_field.through). -/
structure M2MField where
  name : String
  related : ModelKey
  through_auto_created : Bool
  through : ModelKey
deriving DecidableEq

/-- A model description: app_label, object_name, _meta.fields and
_meta.many_to_many. -/
structure Model where
  app : String
  name : String
  fields : List RegField
  m2m : List M2MField
deriving DecidableEq

/-- The registry snapshot, in apps_registry.get_models() iteration order.
Explicitly declared through models are ordinary members of this list;
framework-auto-created join tables are not. -/
abbrev Registry := List Model

/-- apps_registry.get_model(app_label, model_name).  Django additionally
matches the model name case-insensitively; every lookup in this
development uses the declared object name verbatim, so exact matching is
used.  A failed lookup raises LookupError in the source, embedded as
none. -/
def getModel (reg : Registry) (app_label model_name : String) : Option Model :=
  reg.find? fun m => m.app == app_label && m.name == model_name

/-- One entry of the fk_models result list of find_related_models:
the dict with keys model, app_name, fk_field.  The app_name field is an
Option because create_uuid_migration reads it with dict.get and a
default; discovery always fills it in. -/
structure FKEntry where
  model : String
  app_name : Option String
  fk_field : String
deriving DecidableEq

/-- One entry of the implicit_m2m result list: the dict with keys model,
app_name, field_name, and (only for the target models own m2m fields)
related_model / related_app, embedded as the optional related key. -/
structure ImplicitEntry where
  model : String
  app_name : String
  field_name : String
  related : Option ModelKey
deriving DecidableEq

/-- One entry of the through_models result list: the dict with keys
model, app_name, field_name. -/
structure ThroughEntry where
  model : String
  app_name : Option String
  field_name : String
deriving DecidableEq

/-- find_related_models, lines 55-64: for every model of the registry,
every _meta.fields entry that is relation-typed and references the
target model yields an fk_models dict. -/
def fk_scan (reg : Registry) (pkey : ModelKey) : List FKEntry :=
  reg.flatMap fun m => m.fields.filterMap fun f =>
    if f.is_relation && f.related == some pkey then
      some { model := m.name, app_name := some m.app, fk_field := f.name }
    else none

/-- find_related_models, lines 67-76: many-to-many fields of any model
that reference the target and whose through model is auto-created. -/
def implicit_scan (reg : Registry) (pkey : ModelKey) : List ImplicitEntry :=
  reg.flatMap fun m => m.m2m.filterMap fun f =>
    if f.related == pkey && f.through_auto_created then
      some { model := m.name, app_name := m.app, field_name := f.name, related := none }
    else none

/-- find_related_models, lines 77-87: many-to-many fields of any model
that reference the target through an explicitly declared through model;
for each, every relation-typed field of the through model referencing
the target yields a through_models dict.  In the source the through
model object is at hand (field.remote_field.through); here it is looked
up by its key, and a through model absent from the registry (impossible
in Django) contributes nothing. -/
def through_scan (reg : Registry) (pkey : ModelKey) : List ThroughEntry :=
  reg.flatMap fun m => m.m2m.flatMap fun f =>
    if f.related == pkey && !f.through_auto_created then
      match getModel reg f.through.app f.through.name with
      | some tm =>
          tm.fields.filterMap fun tf =>
            if tf.is_relation && tf.related == some pkey then
              some { model := tm.name, app_name := some tm.app, field_name := tf.name }
            else none
      | none => []
    else []

/-- find_related_models, lines 90-99 (auto-created branch): every
many-to-many field declared on the target itself with an auto-created
join table yields an implicit_m2m dict that additionally records the
related model under the related_model / related_app keys (read in the
source from the related model object, whose identity is its key). -/
def parent_implicit (app_name parent_model : String) (pm : Model) : List ImplicitEntry :=
  pm.m2m.filterMap fun f =>
    if f.through_auto_created then
      some { model := parent_model, app_name := app_name, field_name := f.name,
             related := some f.related }
    else none

/-- find_related_models, lines 100-119 (explicit-through branch): for
every many-to-many field declared on the target with an explicit through
model, every relation-typed field of the through model that does not
reference the target is paired with every differently-named
relation-typed field that does, and the latter yields a through_models
dict. -/
def parent_through (reg : Registry) (pm : Model) (pkey : ModelKey) : List ThroughEntry :=
  pm.m2m.flatMap fun f =>
    if f.through_auto_created then []
    else
      match getModel reg f.through.app f.through.name with
      | some tm =>
          tm.fields.flatMap fun tf =>
            if tf.is_relation && !(tf.related == some pkey) then
              tm.fields.filterMap fun og =>
                if og.is_relation && og.related == some pkey && og.name != tf.name then
                  some { model := tm.name, app_name := some tm.app, field_name := og.name }
                else none
            else []
      | none => []

/-- find_related_models (lines 35-121).  Returns the three lists
(fk_models, implicit_m2m, through_models); none embeds the LookupError
raised when the target model is not in the registry.  The source fills
the three lists in one pass over the registry; per list the entry order
is registry order, with the entries coming from the target models own
many-to-many fields appended last, as here. -/
def find_related_models (reg : Registry) (app_name parent_model : String) :
    Option (List FKEntry × List ImplicitEntry × List ThroughEntry) :=
  match getModel reg app_name parent_model with
  | none => none
  | some pm =>
      let pkey : ModelKey := ⟨pm.app, pm.name⟩
      some (fk_scan reg pkey,
            implicit_scan reg pkey ++ parent_implicit app_name parent_model pm,
            through_scan reg pkey ++ parent_through reg pm pkey)

/-- The data interpolated into the remediation text that
generate_through_model_code renders for one implicit relation: the
through model name, the two sides, the field name and the predicted
auto-created join-table name.  The surrounding template text of the
source (the model code string and the two-phase migration hint) is
presentation and carries exactly these values. -/
structure ThroughHint where
  through_model_name : String
  source_model : String
  source_app : String
  target_model : String
  target_app : String
  field_name : String
  automatic_table_name : String
deriving DecidableEq

/-- Body of the generate_through_model_code loop (lines 130-150): the
values interpolated for one implicit_m2m entry.  When the entry carries
the related_model key (a many-to-many declared on the target), the
target side is that related model; otherwise the declaring model is both
source and target of the generated name (in that branch the source reads
related_model with dict.get and a default, and the key is absent, so the
defaults stand). -/
def throughHintFor (m2m : ImplicitEntry) : ThroughHint :=
  let source_model := m2m.model
  let source_app := m2m.app_name
  let field_name := m2m.field_name
  match m2m.related with
  | some rel =>
      { through_model_name := source_model ++ rel.name ++ "Through"
        source_model := source_model
        source_app := source_app
        target_model := rel.name
        target_app := rel.app
        field_name := field_name
        automatic_table_name :=
          lower source_app ++ "_" ++ lower source_model ++ "_" ++ lower field_name }
  | none =>
      { through_model_name := source_model ++ m2m.model ++ "Through"
        source_model := source_model
        source_app := source_app
        target_model := m2m.model
        target_app := m2m.app_name
        field_name := field_name
        automatic_table_name :=
          lower source_app ++ "_" ++ lower source_model ++ "_" ++ lower field_name }

/-- generate_through_model_code (lines 123-224).  The source returns two
dicts keyed by the generated through model name, holding the rendered
model code and migration hint; both are embedded as association lists of
the interpolated data (a later duplicate key would overwrite in a dict,
an edge the settled properties do not depend on). -/
def generate_through_model_code (implicit_m2m : List ImplicitEntry) :
    List (String × ThroughHint) × List (String × ThroughHint) :=
  (implicit_m2m.map fun m2m => ((throughHintFor m2m).through_model_name, throughHintFor m2m),
   implicit_m2m.map fun m2m => ((throughHintFor m2m).through_model_name, throughHintFor m2m))

/-- A row of the parent model as update_foreign_keys reads it: the value
of its primary-key field and of the already-added surrogate uuid field
(none while unpopulated). -/
structure ParentRow where
  pk : Int
  pk_uuid : Option Nat
deriving DecidableEq

/-- A row of the child model as update_foreign_keys reads and writes it:
the stored foreign-key id (none when the nullable column is empty) and
the surrogate uuid field. -/
structure ChildRow where
  fk_id : Option Int
  fk_uuid : Option Nat
deriving DecidableEq

/-- Body of the update_foreign_keys loop (lines 23-33) for one child
row.  ParentModel.objects.get compares the parent primary-key column
with the childs stored fk id: exactly one match assigns the parents
surrogate uuid to the childs surrogate field; no match raises
DoesNotExist, which the source catches and, only when the foreign-key
field is declared nullable, answers by storing none -- when it is not
nullable the except block does nothing and the loop simply moves on;
several matches raise MultipleObjectsReturned, which nothing catches
(none aborts the run). -/
def update_foreign_keys_row (fk_null : Bool) (parents : List ParentRow)
    (child : ChildRow) : Option ChildRow :=
  match parents.filter fun p => some p.pk == child.fk_id with
  | [p] => some { child with fk_uuid := p.pk_uuid }
  | [] =>
      if fk_null then some { child with fk_uuid := none }
      else some child
  | _ => none

/-- update_foreign_keys (lines 15-33): the data operation the populate
steps execute against live rows.  The database handles of the source are
replaced by the explicit row lists and the nullability flag the source
reads from ChildModel._meta.get_field(fk_field).null; the returned list
is the child table after the run. -/
def update_foreign_keys (fk_null : Bool) (parents : List ParentRow)
    (children : List ChildRow) : Option (List ChildRow) :=
  children.mapM (update_foreign_keys_row fk_null parents)

/-- The field argument of an AddField / AlterField operation, as far as
the source distinguishes it: the three UUIDField shapes of steps 1/3/8
and the restored ForeignKey of steps 9/10 (models.ForeignKey with
on_delete=CASCADE and the given to target). -/
inductive FieldSpec where
  | uuidNull
  | uuidDefault
  | uuidPK
  | foreignKey (to_model : String)
deriving DecidableEq

/-- The call a RunPython operation performs when the migration is
applied: either generate_uuid_for_model or update_foreign_keys, with the
string arguments the closure passes. -/
inductive PopCall where
  | generate_uuid_for_model (model_name app_name pk_field : String)
  | update_foreign_keys (parent_model child_model app_name child_app_name fk_field pk_field : String)
deriving DecidableEq

/-- One migration operation appended by create_uuid_migration. -/
inductive Operation where
  | addField (model_name name : String) (field : FieldSpec)
  | runPython (call : PopCall)
  | alterField (model_name name : String) (field : FieldSpec)
  | removeField (model_name name : String)
  | renameField (model_name old_name new_name : String)
deriving DecidableEq

/-- The kind of an operation, for stating step-kind sequences. -/
def Operation.kind : Operation → String
  | .addField _ _ _ => "AddField"
  | .runPython _ => "RunPython"
  | .alterField _ _ _ => "AlterField"
  | .removeField _ _ => "RemoveField"
  | .renameField _ _ _ => "RenameField"

/-- The migration class the source assembles at lines 459-462: the
caller-supplied dependencies passed through unexamined, and the ordered
operation list. -/
structure MigrationPlan where
  dependencies : List (String × String)
  operations : List Operation
deriving DecidableEq

/-- The errors create_uuid_migration can raise: the LookupError
propagated from find_related_models for an unknown target, and the
ValueError of lines 248-281 whose message is assembled from exactly the
data carried here. -/
structure ImplicitReport where
  parent_model : String
  implicit_m2m : List ImplicitEntry
  through_models_code : List (String × ThroughHint)
  migration_hints : List (String × ThroughHint)
deriving DecidableEq

inductive PlanError where
  | unresolvedEntity (app_name model_name : String)
  | implicitM2M (report : ImplicitReport)
deriving DecidableEq

/-- The four operations of one iteration of the through-model loop of
create_uuid_migration (steps 4.1-4.4, lines 319-359): add the nullable
surrogate field, the RunPython data step, remove the old field, rename
the surrogate into its name.  The RunPython closure of the source reads
the loop variables through_model / through_app / field_name only when
the migration is applied, i.e. after create_uuid_migration has returned
and every loop has completed, so it sees the values of the final
iteration; they are passed here as lastT. -/
def throughBlock (parent_model app_name pk_field : String) (lastT t : ThroughEntry) :
    List Operation :=
  [ .addField (lower t.model) (t.field_name ++ "_uuid") .uuidNull,
    .runPython (.update_foreign_keys parent_model lastT.model app_name
      (lastT.app_name.getD app_name) lastT.field_name pk_field),
    .removeField (lower t.model) t.field_name,
    .renameField (lower t.model) (t.field_name ++ "_uuid") t.field_name ]

/-- The through-model section of the plan (step 4).  For a non-empty
list the final loop iteration is its last entry (the getD fallback is
never reached, since t ranges over ths); for an empty list the loop body
never runs. -/
def throughSection (parent_model app_name pk_field : String)
    (ths : List ThroughEntry) : List Operation :=
  ths.flatMap fun t => throughBlock parent_model app_name pk_field (ths.getLast?.getD t) t

/-- The four operations of one iteration of the child-model loop (steps
5.1-5.4, lines 361-401), with the same late-binding behaviour of the
RunPython closure: child_model / child_app / fk_field hold the values of
the final loop iteration (lastC) when the migration is applied. -/
def childBlock (parent_model app_name pk_field : String) (lastC c : FKEntry) :
    List Operation :=
  [ .addField (lower c.model) (c.fk_field ++ "_uuid") .uuidNull,
    .runPython (.update_foreign_keys parent_model lastC.model app_name
      (lastC.app_name.getD app_name) lastC.fk_field pk_field),
    .removeField (lower c.model) c.fk_field,
    .renameField (lower c.model) (c.fk_field ++ "_uuid") c.fk_field ]

/-- The child-model section of the plan (step 5). -/
def childSection (parent_model app_name pk_field : String)
    (childs : List FKEntry) : List Operation :=
  childs.flatMap fun c => childBlock parent_model app_name pk_field (childs.getLast?.getD c) c

/-- The full operation list create_uuid_migration appends, in source
order (steps 1-10, lines 291-456): the three steps on the target model,
the through-model section, the child-model section, the three
primary-key swap steps on the target, then the foreign-key restoration
for every child and finally for every through model. -/
def buildOperations (parent_model app_name pk_field : String)
    (ths : List ThroughEntry) (childs : List FKEntry) : List Operation :=
  [ .addField (lower parent_model) (pk_field ++ "_uuid") .uuidNull,
    .runPython (.generate_uuid_for_model parent_model app_name pk_field),
    .alterField (lower parent_model) (pk_field ++ "_uuid") .uuidDefault ]
  ++ (throughSection parent_model app_name pk_field ths
  ++ (childSection parent_model app_name pk_field childs
  ++ ([ .removeField (lower parent_model) pk_field,
        .renameField (lower parent_model) (pk_field ++ "_uuid") pk_field,
        .alterField (lower parent_model) pk_field .uuidPK ]
  ++ ((childs.map fun c =>
        .alterField (lower c.model) c.fk_field (.foreignKey (app_name ++ "." ++ parent_model)))
  ++ (ths.map fun t =>
        .alterField (lower t.model) t.field_name (.foreignKey (app_name ++ "." ++ parent_model)))))))

/-- create_uuid_migration (lines 226-464).  With auto-detection on, the
discovery result is computed first; a LookupError for the target or the
ValueError of the implicit-m2m check (raised before any operation is
appended) abort with no plan, and otherwise the discovered fk list
stands in for an omitted child_models argument and the discovered
through list feeds the through sections.  With auto-detection off, no
discovery and no implicit check run, the through sections are empty and
an omitted child_models argument becomes the empty list. -/
def create_uuid_migration (reg : Registry) (parent_model app_name : String)
    (dependencies : List (String × String)) (child_models : Option (List FKEntry))
    (pk_field : String) (auto_detect_relations : Bool) :
    Except PlanError MigrationPlan :=
  if auto_detect_relations then
    match find_related_models reg app_name parent_model with
    | none => .error (.unresolvedEntity app_name parent_model)
    | some (fk_related, implicit_m2m, through_models) =>
        match implicit_m2m with
        | _ :: _ =>
            .error (.implicitM2M
              { parent_model := parent_model
                implicit_m2m := implicit_m2m
                through_models_code := (generate_through_model_code implicit_m2m).1
                migration_hints := (generate_through_model_code implicit_m2m).2 })
        | [] =>
            .ok { dependencies := dependencies
                  operations := buildOperations parent_model app_name pk_field
                    through_models (child_models.getD fk_related) }
  else
    .ok { dependencies := dependencies
          operations := buildOperations parent_model app_name pk_field
            [] (child_models.getD []) }

/-- A relation occurrence named the way the discovery dicts name it:
the declaring model object_name, its app_label and the field name. -/
structure Rel3 where
  model : String
  app : String
  field : String
deriving DecidableEq

/-- The three result lists of find_related_models flattened to relation
occurrences, in order: fk_models, implicit_m2m, through_models.  The
entries record either the fk_field or the field_name key of the dict;
the app_name keys are always present in discovery output. -/
def relTriples (fk : List FKEntry) (imp : List ImplicitEntry)
    (th : List ThroughEntry) : List Rel3 :=
  (fk.map fun e => ⟨e.model, e.app_name.getD "", e.fk_field⟩)
  ++ ((imp.map fun e => ⟨e.model, e.app_name, e.field_name⟩)
  ++ (th.map fun e => ⟨e.model, e.app_name.getD "", e.field_name⟩))

/-- The relations touching the target, following the words of the spec
(sections 4.1 and 8): every relation-typed concrete field of any
registry model that references the target; every many-to-many field of
any model that references the target; and every many-to-many field
declared on the target pointing outward (at a model other than the
target itself -- inward-pointing ones already belong to the second
group).  This definition follows the spec text and exists to be compared
with the discovery output. -/
def spec_touchingRelations (reg : Registry) (app_name parent_model : String) : List Rel3 :=
  match getModel reg app_name parent_model with
  | none => []
  | some pm =>
      let pkey : ModelKey := ⟨pm.app, pm.name⟩
      (reg.flatMap fun m => m.fields.filterMap fun f =>
        if f.is_relation && f.related == some pkey then
          some ⟨m.name, m.app, f.name⟩
        else none)
      ++ ((reg.flatMap fun m => m.m2m.filterMap fun f =>
        if f.related == pkey then some ⟨m.name, m.app, f.name⟩ else none)
      ++ (pm.m2m.filterMap fun f =>
        if f.related == pkey then none else some ⟨parent_model, app_name, f.name⟩))

/-- The RunPython payloads of a plan, in order: the calls its data
steps perform when the migration is applied. -/
def popCalls (ops : List Operation) : List PopCall :=
  ops.filterMap fun op =>
    match op with
    | .runPython call => some call
    | _ => none

/-- The end-to-end scenario registry of the spec: target Order in app
shop with primary key id; LineItem.order a non-nullable foreign key to
Order; Tag; and the explicit join model OrderTagThrough with foreign
keys to Order and Tag, through which Order.tags reaches Tag. -/
def orderModel : Model :=
  { app := "shop", name := "Order",
    fields := [⟨"id", false, none, false⟩],
    m2m := [⟨"tags", ⟨"shop", "Tag"⟩, false, ⟨"shop", "OrderTagThrough"⟩⟩] }

def lineItemModel : Model :=
  { app := "shop", name := "LineItem",
    fields := [⟨"id", false, none, false⟩,
               ⟨"order", true, some ⟨"shop", "Order"⟩, false⟩],
    m2m := [] }

def tagModel : Model :=
  { app := "shop", name := "Tag",
    fields := [⟨"id", false, none, false⟩],
    m2m := [] }

def orderTagThroughModel : Model :=
  { app := "shop", name := "OrderTagThrough",
    fields := [⟨"id", false, none, false⟩,
               ⟨"order", true, some ⟨"shop", "Order"⟩, false⟩,
               ⟨"tag", true, some ⟨"shop", "Tag"⟩, false⟩],
    m2m := [] }

def shopRegistry : Registry :=
  [orderModel, lineItemModel, tagModel, orderTagThroughModel]

/-- A registry with two plain foreign-key dependents of Order and no
many-to-many relations at all. -/
def reviewModel : Model :=
  { app := "shop", name := "Review",
    fields := [⟨"id", false, none, false⟩,
               ⟨"order", true, some ⟨"shop", "Order"⟩, false⟩],
    m2m := [] }

def plainOrderModel : Model :=
  { app := "shop", name := "Order",
    fields := [⟨"id", false, none, false⟩],
    m2m := [] }

def twoChildRegistry : Registry := [plainOrderModel, lineItemModel, reviewModel]

/-- A registry whose target Product carries an implicit (auto-created)
many-to-many field tags pointing at Tag. -/
def productModel : Model :=
  { app := "store", name := "Product",
    fields := [⟨"id", false, none, false⟩],
    m2m := [⟨"tags", ⟨"store", "Tag"⟩, true, ⟨"store", "Product_tags"⟩⟩] }

def productRegistry : Registry := [productModel]

/-- A registry holding only the target, with no relations anywhere. -/
def orderOnlyRegistry : Registry := [plainOrderModel]

/-- Claim C1: for the scenario registry (target Order in app shop,
non-nullable dependent LineItem.order, explicit join model
OrderTagThrough relating Order and Tag) the claim expects a 16-operation
plan.  The code instead emits 21 operations: the foreign-key scan of
find_related_models also picks up the foreign-key field of the
explicitly declared through model OrderTagThrough, so that model is
processed both by the through-model section and, a second time, as an
auto-detected child, removing and renaming its order field twice.  This
theorem evaluates the plan at the scenario input. -/
theorem c1_scenario_plan_evaluation :
    (create_uuid_migration shopRegistry "Order" "shop" [] none "id" true).map
        (fun p => (p.operations.length, p.operations.map Operation.kind)) =
      .ok (21, ["AddField", "RunPython", "AlterField",
                "AddField", "RunPython", "RemoveField", "RenameField",
                "AddField", "RunPython", "RemoveField", "RenameField",
                "AddField", "RunPython", "RemoveField", "RenameField",
                "RemoveField", "RenameField", "AlterField",
                "AlterField", "AlterField", "AlterField"]) ∧
    (create_uuid_migration shopRegistry "Order" "shop" [] none "id" true).map
        (fun p => p.operations.count (.removeField "ordertagthrough" "order")) =
      .ok 2 :=
  ⟨rfl, rfl⟩

/-- Claim C5: when a dependent row points at a parent row that no longer
exists, the nullable case does store an empty surrogate and the row
proceeds; but in the non-nullable case the source catches DoesNotExist
and then does nothing, so the run completes with the row untouched and
nothing is surfaced to the operator.  Evaluation: one orphaned child row
(fk id 1, no parent rows), first with a nullable and then with a
non-nullable foreign key. -/
theorem c5_orphan_row_evaluation :
    update_foreign_keys true [] [⟨some 1, some 5⟩] = some [⟨some 1, none⟩] ∧
    update_foreign_keys false [] [⟨some 1, some 5⟩] = some [⟨some 1, some 5⟩] :=
  ⟨rfl, rfl⟩

/-- Claim C6: with two foreign-key dependents (LineItem.order and
Review.order, discovered in that order), both emitted RunPython populate
steps execute update_foreign_keys with the model, app and field of the
last dependent, Review -- the loop lambdas of the source close over the
loop variables, which hold the final iteration values when the migration
is applied -- so the first dependents populate step is not bound to
LineItem as the claim states. -/
theorem c6_populate_binding_evaluation :
    (create_uuid_migration twoChildRegistry "Order" "shop" [] none "id" true).map
        (fun p => popCalls p.operations) =
      .ok [.generate_uuid_for_model "Order" "shop" "id",
           .update_foreign_keys "Order" "Review" "shop" "shop" "order" "id",
           .update_foreign_keys "Order" "Review" "shop" "shop" "order" "id"] ∧
    (find_related_models twoChildRegistry "shop" "Order").map (fun x => x.1.map FKEntry.model) =
      some ["LineItem", "Review"] :=
  ⟨rfl, rfl⟩

/-- Claim C9 counterexample: calling create_uuid_migration with
auto_detect_relations disabled does not signal any usage error -- at this
concrete input it returns a complete plan. -/
theorem c9_counterexample_plan_without_validation :
    create_uuid_migration [] "Order" "shop" [] none "id" false =
      .ok { dependencies := []
            operations :=
              [ .addField "order" "id_uuid" .uuidNull,
                .runPython (.generate_uuid_for_model "Order" "shop" "id"),
                .alterField "order" "id_uuid" .uuidDefault,
                .removeField "order" "id",
                .renameField "order" "id_uuid" "id",
                .alterField "order" "id" .uuidPK ] } :=
  rfl

/-- Claim C9 amended: with auto_detect_relations disabled the
implicit-m2m check never runs and no usage error is signalled;
create_uuid_migration always returns a plan built from the supplied
child_models (empty when omitted) with no through-model operations. -/
theorem c9_amended_no_guard_when_disabled (reg : Registry)
    (parent_model app_name pk : String) (deps : List (String × String))
    (cm : Option (List FKEntry)) :
    create_uuid_migration reg parent_model app_name deps cm pk false =
      .ok { dependencies := deps
            operations := buildOperations parent_model app_name pk [] (cm.getD []) } :=
  rfl

/-- Claim C3: with auto-detection on and the target resolvable, a
non-empty implicit-m2m discovery always aborts with the error carrying
the remediation report -- raised in the source before any operation is
appended, so no plan operation exists at the point of failure -- and an
empty implicit-m2m list always yields a plan. -/
theorem c3_implicit_m2m_always_blocks (reg : Registry)
    (parent_model app_name pk : String) (deps : List (String × String))
    (cm : Option (List FKEntry)) (fk : List FKEntry)
    (imp : List ImplicitEntry) (th : List ThroughEntry)
    (hf : find_related_models reg app_name parent_model = some (fk, imp, th)) :
    (imp ≠ [] →
      create_uuid_migration reg parent_model app_name deps cm pk true =
        .error (.implicitM2M
          { parent_model := parent_model
            implicit_m2m := imp
            through_models_code := (generate_through_model_code imp).1
            migration_hints := (generate_through_model_code imp).2 })) ∧
    (imp = [] →
      create_uuid_migration reg parent_model app_name deps cm pk true =
        .ok { dependencies := deps
              operations := buildOperations parent_model app_name pk th (cm.getD fk) }) := by
  constructor
  · intro hne
    cases imp with
    | nil => exact absurd rfl hne
    | cons a l => simp [create_uuid_migration, hf]
  · intro he
    subst he
    simp [create_uuid_migration, hf]

/-- Claim C3 witness: on the registry whose target Product has an
auto-created many-to-many field, create_uuid_migration fails with the
remediation report and produces no plan. -/
theorem c3_witness_blocked :
    create_uuid_migration productRegistry "Product" "store" [] none "id" true =
      .error (.implicitM2M
        { parent_model := "Product"
          implicit_m2m := [⟨"Product", "store", "tags", some ⟨"store", "Tag"⟩⟩]
          through_models_code := [("ProductTagThrough",
            ⟨"ProductTagThrough", "Product", "store", "Tag", "store", "tags",
             "store_product_tags"⟩)]
          migration_hints := [("ProductTagThrough",
            ⟨"ProductTagThrough", "Product", "store", "Tag", "store", "tags",
             "store_product_tags"⟩)] }) := by
  exact (c3_implicit_m2m_always_blocks productRegistry "Product" "store" "id" [] none
    _ _ _ rfl).1 (by decide)

/-- Claim C7: when discovery finds no foreign-key dependents, no
implicit relations and no through models, the plan is exactly the
six-step self swap: add the nullable surrogate, populate it, tighten its
constraints, drop the old primary key, rename the surrogate into its
name, set it as primary key -- no dependent steps and no foreign-key
restoration steps. -/
theorem c7_no_dependents_plan (reg : Registry) (parent_model app_name pk : String)
    (deps : List (String × String))
    (hf : find_related_models reg app_name parent_model = some ([], [], [])) :
    create_uuid_migration reg parent_model app_name deps none pk true =
      .ok { dependencies := deps
            operations :=
              [ .addField (lower parent_model) (pk ++ "_uuid") .uuidNull,
                .runPython (.generate_uuid_for_model parent_model app_name pk),
                .alterField (lower parent_model) (pk ++ "_uuid") .uuidDefault,
                .removeField (lower parent_model) pk,
                .renameField (lower parent_model) (pk ++ "_uuid") pk,
                .alterField (lower parent_model) pk .uuidPK ] } := by
  simp [create_uuid_migration, hf, buildOperations, throughSection, childSection]

/-- Claim C7 witness: the plan for the registry holding only the target
Order. -/
theorem c7_witness_order_only :
    create_uuid_migration orderOnlyRegistry "Order" "shop"
        [("shop", "0001_initial")] none "id" true =
      .ok { dependencies := [("shop", "0001_initial")]
            operations :=
              [ .addField "order" "id_uuid" .uuidNull,
                .runPython (.generate_uuid_for_model "Order" "shop" "id"),
                .alterField "order" "id_uuid" .uuidDefault,
                .removeField "order" "id",
                .renameField "order" "id_uuid" "id",
                .alterField "order" "id" .uuidPK ] } := by
  exact c7_no_dependents_plan orderOnlyRegistry "Order" "shop" "id"
    [("shop", "0001_initial")] rfl

/-- Claim C8: every entry of the remediation report predicts the
auto-created join-table name as the declaring models app name, entity
name and field name, each lower-cased, joined with underscores in that
order. -/
theorem c8_table_name_convention (l : List ImplicitEntry) (p : String × ThroughHint)
    (hp : p ∈ (generate_through_model_code l).1) :
    ∃ e ∈ l, p.2.automatic_table_name =
      lower e.app_name ++ "_" ++ lower e.model ++ "_" ++ lower e.field_name := by
  rcases List.mem_map.mp hp with ⟨e, he, rfl⟩
  refine ⟨e, he, ?_⟩
  rcases e with ⟨m, a, f, r⟩
  cases r <;> rfl

/-- Claim C8 witness: the convention evaluated at the Product.tags
implicit relation, whose predicted table name is store_product_tags. -/
theorem c8_witness_product_tags :
    ∃ e ∈ [(⟨"Product", "store", "tags", some ⟨"store", "Tag"⟩⟩ : ImplicitEntry)],
      ("ProductTagThrough",
        (⟨"ProductTagThrough", "Product", "store", "Tag", "store", "tags",
          "store_product_tags"⟩ : ThroughHint)).2.automatic_table_name =
        lower e.app_name ++ "_" ++ lower e.model ++ "_" ++ lower e.field_name := by
  exact c8_table_name_convention
    [⟨"Product", "store", "tags", some ⟨"store", "Tag"⟩⟩] _ (by decide)

/-- Claim C10: with auto-detection on and a successfully validated
discovery, a supplied child_models list replaces the discovered
foreign-key relations in every child section of the plan while the
through sections still come from discovery; the discovered foreign-key
relations are used exactly when child_models is omitted. -/
theorem c10_child_models_override (reg : Registry)
    (parent_model app_name pk : String) (deps : List (String × String))
    (cs fk : List FKEntry) (th : List ThroughEntry)
    (hf : find_related_models reg app_name parent_model = some (fk, [], th)) :
    (create_uuid_migration reg parent_model app_name deps (some cs) pk true =
      .ok { dependencies := deps
            operations := buildOperations parent_model app_name pk th cs }) ∧
    (create_uuid_migration reg parent_model app_name deps none pk true =
      .ok { dependencies := deps
            operations := buildOperations parent_model app_name pk th fk }) := by
  constructor <;> simp [create_uuid_migration, hf]

/-- Claim C10 witness: on the scenario registry, a caller-supplied child
list routes the child sections to it while the discovered through model
is kept, and omitting it routes them to the discovered foreign-key
list. -/
theorem c10_witness_shop :
    (create_uuid_migration shopRegistry "Order" "shop" []
        (some [⟨"Custom", some "ext", "ord"⟩]) "id" true =
      .ok { dependencies := []
            operations := buildOperations "Order" "shop" "id"
              [⟨"OrderTagThrough", some "shop", "order"⟩]
              [⟨"Custom", some "ext", "ord"⟩] }) ∧
    (create_uuid_migration shopRegistry "Order" "shop" [] none "id" true =
      .ok { dependencies := []
            operations := buildOperations "Order" "shop" "id"
              [⟨"OrderTagThrough", some "shop", "order"⟩]
              [⟨"LineItem", some "shop", "order"⟩,
               ⟨"OrderTagThrough", some "shop", "order"⟩] }) := by
  exact c10_child_models_override shopRegistry "Order" "shop" "id" []
    [⟨"Custom", some "ext", "ord"⟩] _ _ rfl

theorem getElem?_append_offset {α : Type} (l₁ l₂ : List α) (i : Nat) :
    (l₁ ++ l₂)[l₁.length + i]? = l₂[i]? := by
  rw [List.getElem?_append_right (Nat.le_add_right _ _), Nat.add_sub_cancel_left]

theorem getElem?_append_right_of {α : Type} (l₁ l₂ : List α) (n m : Nat)
    (h : n = l₁.length + m) : (l₁ ++ l₂)[n]? = l₂[m]? := by
  subst h
  exact getElem?_append_offset l₁ l₂ m

theorem length_flatMap_const {α β : Type} (F : α → List β) (n : Nat)
    (h : ∀ a, (F a).length = n) (l : List α) :
    (l.flatMap F).length = n * l.length := by
  induction l with
  | nil => simp
  | cons a t ih =>
      simp only [List.flatMap_cons, List.length_append, h a, ih, List.length_cons,
        Nat.mul_succ]
      omega

theorem getElem?_flatMap_const {α β : Type} (F : α → List β)
    (h4 : ∀ a, (F a).length = 4) (l : List α) (i r : Nat) (hi : i < l.length)
    (hr : r < 4) :
    (l.flatMap F)[4 * i + r]? = (F (l.get ⟨i, hi⟩))[r]? := by
  induction l generalizing i with
  | nil => exact absurd hi (Nat.not_lt_zero i)
  | cons a t ih =>
      cases i with
      | zero =>
          have hz : 4 * 0 + r = r := by omega
          rw [List.flatMap_cons, hz, List.getElem?_append_left (by rw [h4]; exact hr)]
          rfl
      | succ i' =>
          have hs : 4 * (i' + 1) + r = (F a).length + (4 * i' + r) := by
            rw [h4]; omega
          rw [List.flatMap_cons, hs, getElem?_append_offset]
          exact ih i' (Nat.lt_of_succ_lt_succ hi)

theorem throughSection_length (p a k : String) (ths : List ThroughEntry) :
    (throughSection p a k ths).length = 4 * ths.length :=
  length_flatMap_const
    (fun t => throughBlock p a k (ths.getLast?.getD t) t) 4 (fun _ => rfl) ths

theorem childSection_length (p a k : String) (cs : List FKEntry) :
    (childSection p a k cs).length = 4 * cs.length :=
  length_flatMap_const
    (fun c => childBlock p a k (cs.getLast?.getD c) c) 4 (fun _ => rfl) cs

theorem build_pkRemove (p a k : String) (ths : List ThroughEntry) (cs : List FKEntry) :
    (buildOperations p a k ths cs)[3 + 4 * ths.length + 4 * cs.length]? =
      some (.removeField (lower p) k) := by
  simp only [buildOperations]
  rw [getElem?_append_right_of _ _ _ (4 * ths.length + 4 * cs.length)
    (by simp only [List.length_cons, List.length_nil]; try omega)]
  rw [getElem?_append_right_of _ _ _ (4 * cs.length)
    (by rw [throughSection_length])]
  rw [getElem?_append_right_of _ _ _ 0 (by rw [childSection_length]; try omega)]
  rfl

theorem build_pkSet (p a k : String) (ths : List ThroughEntry) (cs : List FKEntry) :
    (buildOperations p a k ths cs)[3 + 4 * ths.length + 4 * cs.length + 2]? =
      some (.alterField (lower p) k .uuidPK) := by
  simp only [buildOperations]
  rw [getElem?_append_right_of _ _ _ (4 * ths.length + 4 * cs.length + 2)
    (by simp only [List.length_cons, List.length_nil]; try omega)]
  rw [getElem?_append_right_of _ _ _ (4 * cs.length + 2)
    (by rw [throughSection_length]; try omega)]
  rw [getElem?_append_right_of _ _ _ 2 (by rw [childSection_length]; try omega)]
  rw [List.getElem?_append_left (by simp only [List.length_cons, List.length_nil]; omega)]
  rfl

theorem build_childRemove (p a k : String) (ths : List ThroughEntry)
    (cs : List FKEntry) (i : Nat) (hi : i < cs.length) :
    (buildOperations p a k ths cs)[3 + 4 * ths.length + (4 * i + 2)]? =
      some (.removeField (lower (cs.get ⟨i, hi⟩).model) (cs.get ⟨i, hi⟩).fk_field) := by
  simp only [buildOperations]
  rw [getElem?_append_right_of _ _ _ (4 * ths.length + (4 * i + 2))
    (by simp only [List.length_cons, List.length_nil]; try omega)]
  rw [getElem?_append_right_of _ _ _ (4 * i + 2) (by rw [throughSection_length])]
  rw [List.getElem?_append_left (by rw [childSection_length]; try omega)]
  simp only [childSection]
  rw [getElem?_flatMap_const (fun c => childBlock p a k (cs.getLast?.getD c) c)
    (fun _ => rfl) cs i 2 hi (by omega)]
  rfl

theorem build_throughRemove (p a k : String) (ths : List ThroughEntry)
    (cs : List FKEntry) (j : Nat) (hj : j < ths.length) :
    (buildOperations p a k ths cs)[3 + (4 * j + 2)]? =
      some (.removeField (lower (ths.get ⟨j, hj⟩).model) (ths.get ⟨j, hj⟩).field_name) := by
  simp only [buildOperations]
  rw [getElem?_append_right_of _ _ _ (4 * j + 2)
    (by simp only [List.length_cons, List.length_nil]; try omega)]
  rw [List.getElem?_append_left (by rw [throughSection_length]; try omega)]
  simp only [throughSection]
  rw [getElem?_flatMap_const (fun t => throughBlock p a k (ths.getLast?.getD t) t)
    (fun _ => rfl) ths j 2 hj (by omega)]
  rfl

theorem build_childSetFK (p a k : String) (ths : List ThroughEntry)
    (cs : List FKEntry) (i : Nat) (hi : i < cs.length) :
    (buildOperations p a k ths cs)[3 + 4 * ths.length + 4 * cs.length + (3 + i)]? =
      some (.alterField (lower (cs.get ⟨i, hi⟩).model) (cs.get ⟨i, hi⟩).fk_field
        (.foreignKey (a ++ "." ++ p))) := by
  simp only [buildOperations]
  rw [getElem?_append_right_of _ _ _ (4 * ths.length + (4 * cs.length + (3 + i)))
    (by simp only [List.length_cons, List.length_nil]; try omega)]
  rw [getElem?_append_right_of _ _ _ (4 * cs.length + (3 + i))
    (by rw [throughSection_length])]
  rw [getElem?_append_right_of _ _ _ (3 + i) (by rw [childSection_length])]
  rw [getElem?_append_right_of _ _ _ i
    (by simp only [List.length_cons, List.length_nil]; try omega)]
  rw [List.getElem?_append_left (by simpa using hi)]
  rw [List.getElem?_map, List.getElem?_eq_getElem hi]
  rfl

theorem build_throughSetFK (p a k : String) (ths : List ThroughEntry)
    (cs : List FKEntry) (j : Nat) (hj : j < ths.length) :
    (buildOperations p a k ths cs)[3 + 4 * ths.length + 4 * cs.length + (3 + (cs.length + j))]? =
      some (.alterField (lower (ths.get ⟨j, hj⟩).model) (ths.get ⟨j, hj⟩).field_name
        (.foreignKey (a ++ "." ++ p))) := by
  simp only [buildOperations]
  rw [getElem?_append_right_of _ _ _ (4 * ths.length + (4 * cs.length + (3 + (cs.length + j))))
    (by simp only [List.length_cons, List.length_nil]; try omega)]
  rw [getElem?_append_right_of _ _ _ (4 * cs.length + (3 + (cs.length + j)))
    (by rw [throughSection_length])]
  rw [getElem?_append_right_of _ _ _ (3 + (cs.length + j)) (by rw [childSection_length])]
  rw [getElem?_append_right_of _ _ _ (cs.length + j)
    (by simp only [List.length_cons, List.length_nil]; try omega)]
  rw [getElem?_append_right_of _ _ _ j (by simp only [List.length_map])]
  rw [List.getElem?_map, List.getElem?_eq_getElem hj]
  rfl

/-- Claim C4: in every plan create_uuid_migration produces (auto-detect
path; a successful run forces the implicit list empty), every dependent
entity has its old-field removal strictly before the removal of the
target primary key, and its foreign-key restoration strictly after the
step that marks the target surrogate as primary key, at the stated
positions of the operation list. -/
theorem c4_dependent_ordering (reg : Registry) (parent_model app_name pk : String)
    (deps : List (String × String)) (cm : Option (List FKEntry))
    (fk : List FKEntry) (th : List ThroughEntry) (plan : MigrationPlan)
    (hf : find_related_models reg app_name parent_model = some (fk, [], th))
    (hok : create_uuid_migration reg parent_model app_name deps cm pk true = .ok plan) :
    plan.operations[3 + 4 * th.length + 4 * (cm.getD fk).length]? =
        some (.removeField (lower parent_model) pk) ∧
    plan.operations[3 + 4 * th.length + 4 * (cm.getD fk).length + 2]? =
        some (.alterField (lower parent_model) pk .uuidPK) ∧
    (∀ i (hi : i < (cm.getD fk).length),
      plan.operations[3 + 4 * th.length + (4 * i + 2)]? =
          some (.removeField (lower ((cm.getD fk).get ⟨i, hi⟩).model)
            ((cm.getD fk).get ⟨i, hi⟩).fk_field) ∧
      3 + 4 * th.length + (4 * i + 2) < 3 + 4 * th.length + 4 * (cm.getD fk).length ∧
      plan.operations[3 + 4 * th.length + 4 * (cm.getD fk).length + (3 + i)]? =
          some (.alterField (lower ((cm.getD fk).get ⟨i, hi⟩).model)
            ((cm.getD fk).get ⟨i, hi⟩).fk_field
            (.foreignKey (app_name ++ "." ++ parent_model))) ∧
      3 + 4 * th.length + 4 * (cm.getD fk).length + 2 <
        3 + 4 * th.length + 4 * (cm.getD fk).length + (3 + i)) ∧
    (∀ j (hj : j < th.length),
      plan.operations[3 + (4 * j + 2)]? =
          some (.removeField (lower (th.get ⟨j, hj⟩).model) (th.get ⟨j, hj⟩).field_name) ∧
      3 + (4 * j + 2) < 3 + 4 * th.length + 4 * (cm.getD fk).length ∧
      plan.operations[3 + 4 * th.length + 4 * (cm.getD fk).length +
          (3 + ((cm.getD fk).length + j))]? =
          some (.alterField (lower (th.get ⟨j, hj⟩).model) (th.get ⟨j, hj⟩).field_name
            (.foreignKey (app_name ++ "." ++ parent_model))) ∧
      3 + 4 * th.length + 4 * (cm.getD fk).length + 2 <
        3 + 4 * th.length + 4 * (cm.getD fk).length + (3 + ((cm.getD fk).length + j))) := by
  obtain ⟨pdeps, pops⟩ := plan
  have hcreate : create_uuid_migration reg parent_model app_name deps cm pk true =
      .ok { dependencies := deps
            operations := buildOperations parent_model app_name pk th (cm.getD fk) } := by
    simp [create_uuid_migration, hf]
  rw [hcreate] at hok
  injection hok with h
  injection h with hdeps hops
  subst hdeps
  subst hops
  refine ⟨?_, ?_, ?_, ?_⟩
  · exact build_pkRemove parent_model app_name pk th (cm.getD fk)
  · exact build_pkSet parent_model app_name pk th (cm.getD fk)
  · intro i hi
    exact ⟨build_childRemove parent_model app_name pk th (cm.getD fk) i hi,
           by omega,
           build_childSetFK parent_model app_name pk th (cm.getD fk) i hi,
           by omega⟩
  · intro j hj
    exact ⟨build_throughRemove parent_model app_name pk th (cm.getD fk) j hj,
           by omega,
           build_throughSetFK parent_model app_name pk th (cm.getD fk) j hj,
           by omega⟩

/-- Claim C4 witness: the invariant instantiated on the scenario
registry, for the first child (LineItem, block at 7-10) and the first
through entry (OrderTagThrough, block at 3-6): the dependent removals
sit at positions 9 and 5, strictly before the primary-key removal at 15,
and the restorations sit at 18 and 20, strictly after the set-pk step at
17. -/
theorem c4_witness_shop :
    (buildOperations "Order" "shop" "id"
        [⟨"OrderTagThrough", some "shop", "order"⟩]
        [⟨"LineItem", some "shop", "order"⟩,
         ⟨"OrderTagThrough", some "shop", "order"⟩])[15]? =
      some (.removeField "order" "id") ∧
    (buildOperations "Order" "shop" "id"
        [⟨"OrderTagThrough", some "shop", "order"⟩]
        [⟨"LineItem", some "shop", "order"⟩,
         ⟨"OrderTagThrough", some "shop", "order"⟩])[17]? =
      some (.alterField "order" "id" .uuidPK) ∧
    (buildOperations "Order" "shop" "id"
        [⟨"OrderTagThrough", some "shop", "order"⟩]
        [⟨"LineItem", some "shop", "order"⟩,
         ⟨"OrderTagThrough", some "shop", "order"⟩])[9]? =
      some (.removeField "lineitem" "order") ∧
    (9 : Nat) < 15 ∧
    (buildOperations "Order" "shop" "id"
        [⟨"OrderTagThrough", some "shop", "order"⟩]
        [⟨"LineItem", some "shop", "order"⟩,
         ⟨"OrderTagThrough", some "shop", "order"⟩])[18]? =
      some (.alterField "lineitem" "order" (.foreignKey "shop.Order")) ∧
    (17 : Nat) < 18 ∧
    (buildOperations "Order" "shop" "id"
        [⟨"OrderTagThrough", some "shop", "order"⟩]
        [⟨"LineItem", some "shop", "order"⟩,
         ⟨"OrderTagThrough", some "shop", "order"⟩])[5]? =
      some (.removeField "ordertagthrough" "order") ∧
    (5 : Nat) < 15 ∧
    (buildOperations "Order" "shop" "id"
        [⟨"OrderTagThrough", some "shop", "order"⟩]
        [⟨"LineItem", some "shop", "order"⟩,
         ⟨"OrderTagThrough", some "shop", "order"⟩])[20]? =
      some (.alterField "ordertagthrough" "order" (.foreignKey "shop.Order")) ∧
    (17 : Nat) < 20 := by
  have h := c4_dependent_ordering shopRegistry "Order" "shop" "id" [] none
    [⟨"LineItem", some "shop", "order"⟩, ⟨"OrderTagThrough", some "shop", "order"⟩]
    [⟨"OrderTagThrough", some "shop", "order"⟩]
    { dependencies := []
      operations := buildOperations "Order" "shop" "id"
        [⟨"OrderTagThrough", some "shop", "order"⟩]
        [⟨"LineItem", some "shop", "order"⟩,
         ⟨"OrderTagThrough", some "shop", "order"⟩] }
    rfl rfl
  obtain ⟨h1, h2, hc, ht⟩ := h
  exact ⟨h1, h2,
    (hc 0 (by decide)).1, (hc 0 (by decide)).2.1,
    (hc 0 (by decide)).2.2.1, (hc 0 (by decide)).2.2.2,
    (ht 0 (by decide)).1, (ht 0 (by decide)).2.1,
    (ht 0 (by decide)).2.2.1, (ht 0 (by decide)).2.2.2⟩

theorem filterMap_congr_mem {α β : Type} {l : List α} {f g : α → Option β}
    (h : ∀ a ∈ l, f a = g a) : l.filterMap f = l.filterMap g := by
  induction l with
  | nil => rfl
  | cons a t ih =>
      rw [List.filterMap_cons, List.filterMap_cons, h a (List.mem_cons_self a t),
        ih fun x hx => h x (List.mem_cons_of_mem a hx)]

theorem flatMap_congr_mem {α β : Type} {l : List α} {f g : α → List β}
    (h : ∀ a ∈ l, f a = g a) : l.flatMap f = l.flatMap g := by
  induction l with
  | nil => rfl
  | cons a t ih =>
      rw [List.flatMap_cons, List.flatMap_cons, h a (List.mem_cons_self a t),
        ih fun x hx => h x (List.mem_cons_of_mem a hx)]

theorem nodup_filterMap_sub {α β : Type} {l : List α} {fm : α → Option β} {g : α → β}
    (hform : ∀ a ∈ l, ∀ b, fm a = some b → b = g a)
    (hinj : ∀ x ∈ l, ∀ y ∈ l, g x = g y → x = y)
    (hl : l.Nodup) : (l.filterMap fm).Nodup := by
  induction l with
  | nil => simp
  | cons a t ih =>
      obtain ⟨hna, hnt⟩ := List.nodup_cons.mp hl
      have iht := ih (fun x hx b hb => hform x (List.mem_cons_of_mem a hx) b hb)
        (fun x hx y hy => hinj x (List.mem_cons_of_mem a hx) y (List.mem_cons_of_mem a hy))
        hnt
      rw [List.filterMap_cons]
      cases hfa : fm a with
      | none => exact iht
      | some b =>
          rw [List.nodup_cons]
          refine ⟨?_, iht⟩
          intro hmem
          rcases List.mem_filterMap.mp hmem with ⟨x, hx, hbx⟩
          have hbg := hform x (List.mem_cons_of_mem a hx) b hbx
          have hag := hform a (List.mem_cons_self a t) b hfa
          have hax : a = x :=
            hinj a (List.mem_cons_self a t) x (List.mem_cons_of_mem a hx)
              (by rw [← hag, hbg])
          exact hna (hax ▸ hx)

theorem nodup_flatMap_key {α β γ : Type} {l : List α} {F : α → List β}
    {g : α → γ} {k : β → γ}
    (hmap : (l.map g).Nodup)
    (hn : ∀ a ∈ l, (F a).Nodup)
    (hk : ∀ a ∈ l, ∀ b ∈ F a, k b = g a) :
    (l.flatMap F).Nodup := by
  induction l with
  | nil => simp
  | cons a t ih =>
      rw [List.map_cons] at hmap
      obtain ⟨hga, hgt⟩ := List.nodup_cons.mp hmap
      rw [List.flatMap_cons]
      refine List.nodup_append.mpr
        ⟨hn a (List.mem_cons_self a t),
         ih hgt (fun x hx => hn x (List.mem_cons_of_mem a hx))
           (fun x hx b hb => hk x (List.mem_cons_of_mem a hx) b hb),
         ?_⟩
      intro b hba hbt
      rcases List.mem_flatMap.mp hbt with ⟨x, hx, hbx⟩
      have h1 := hk a (List.mem_cons_self a t) b hba
      have h2 := hk x (List.mem_cons_of_mem a hx) b hbx
      exact hga (h1 ▸ h2 ▸ List.mem_map_of_mem g hx)

theorem getModel_mem {reg : Registry} {a n : String} {pm : Model}
    (h : getModel reg a n = some pm) : pm ∈ reg :=
  List.mem_of_find?_eq_some h

theorem getModel_keys {reg : Registry} {a n : String} {pm : Model}
    (h : getModel reg a n = some pm) : pm.app = a ∧ pm.name = n := by
  have hp := List.find?_some h
  simpa using hp

/-- Claim C2 counterexample: on the scenario registry the relation
occurrence (OrderTagThrough, shop, order) -- the foreign-key field the
explicit through model declares at the target -- is returned both in
fk_models and in through_models, so the combined output is not
duplicate-free and the three lists are not a partition of the relations
touching the target. -/
theorem c2_counterexample_double_count :
    find_related_models shopRegistry "shop" "Order" =
      some ([⟨"LineItem", some "shop", "order"⟩,
             ⟨"OrderTagThrough", some "shop", "order"⟩],
            [],
            [⟨"OrderTagThrough", some "shop", "order"⟩]) ∧
    (⟨"OrderTagThrough", "shop", "order"⟩ : Rel3) ∈
      ([⟨"LineItem", some "shop", "order"⟩,
        ⟨"OrderTagThrough", some "shop", "order"⟩] : List FKEntry).map
        (fun e => (⟨e.model, e.app_name.getD "", e.fk_field⟩ : Rel3)) ∧
    (⟨"OrderTagThrough", "shop", "order"⟩ : Rel3) ∈
      ([⟨"OrderTagThrough", some "shop", "order"⟩] : List ThroughEntry).map
        (fun e => (⟨e.model, e.app_name.getD "", e.field_name⟩ : Rel3)) ∧
    ¬ (relTriples
        [⟨"LineItem", some "shop", "order"⟩, ⟨"OrderTagThrough", some "shop", "order"⟩]
        []
        [⟨"OrderTagThrough", some "shop", "order"⟩]).Nodup :=
  ⟨rfl, by decide, by decide, by decide⟩

theorem fk_scan_triples (reg : Registry) (pkey : ModelKey) :
    (fk_scan reg pkey).map
        (fun e => (⟨e.model, e.app_name.getD "", e.fk_field⟩ : Rel3)) =
      reg.flatMap fun m => m.fields.filterMap fun f =>
        if f.is_relation && f.related == some pkey then
          some ⟨m.name, m.app, f.name⟩
        else none := by
  rw [fk_scan, List.map_flatMap]
  apply flatMap_congr_mem
  intro m _
  rw [List.map_filterMap]
  apply filterMap_congr_mem
  intro f _
  cases hc : (f.is_relation && f.related == some pkey) <;> simp [hc]

theorem implicit_scan_triples (reg : Registry) (pkey : ModelKey)
    (hauto : ∀ m ∈ reg, ∀ f ∈ m.m2m, f.through_auto_created = true) :
    (implicit_scan reg pkey).map
        (fun e => (⟨e.model, e.app_name, e.field_name⟩ : Rel3)) =
      reg.flatMap fun m => m.m2m.filterMap fun f =>
        if f.related == pkey then some ⟨m.name, m.app, f.name⟩ else none := by
  rw [implicit_scan, List.map_flatMap]
  apply flatMap_congr_mem
  intro m hm
  rw [List.map_filterMap]
  apply filterMap_congr_mem
  intro f hf
  rw [hauto m hm f hf, Bool.and_true]
  cases hc : (f.related == pkey) <;> simp [hc]

theorem parent_implicit_triples (app_name parent_model : String) (pm : Model)
    (pkey : ModelKey)
    (hauto : ∀ f ∈ pm.m2m, f.through_auto_created = true)
    (hself : ∀ f ∈ pm.m2m, f.related ≠ pkey) :
    (parent_implicit app_name parent_model pm).map
        (fun e => (⟨e.model, e.app_name, e.field_name⟩ : Rel3)) =
      pm.m2m.filterMap fun f =>
        if f.related == pkey then none else some ⟨parent_model, app_name, f.name⟩ := by
  rw [parent_implicit, List.map_filterMap]
  apply filterMap_congr_mem
  intro f hf
  rw [hauto f hf, show (f.related == pkey) = false from
    beq_eq_false_iff_ne.mpr (hself f hf)]
  simp

theorem through_scan_empty (reg : Registry) (pkey : ModelKey)
    (hauto : ∀ m ∈ reg, ∀ f ∈ m.m2m, f.through_auto_created = true) :
    through_scan reg pkey = [] := by
  rw [through_scan]
  have h : ∀ m ∈ reg,
      (m.m2m.flatMap fun f =>
        if f.related == pkey && !f.through_auto_created then
          match getModel reg f.through.app f.through.name with
          | some tm =>
              tm.fields.filterMap fun tf =>
                if tf.is_relation && tf.related == some pkey then
                  some { model := tm.name, app_name := some tm.app, field_name := tf.name }
                else none
          | none => []
        else []) = ([] : List ThroughEntry) := by
    intro m hm
    have h2 : ∀ f ∈ m.m2m,
        (if f.related == pkey && !f.through_auto_created then
          match getModel reg f.through.app f.through.name with
          | some tm =>
              tm.fields.filterMap fun tf =>
                if tf.is_relation && tf.related == some pkey then
                  some { model := tm.name, app_name := some tm.app, field_name := tf.name }
                else none
          | none => []
        else []) = ([] : List ThroughEntry) := by
      intro f hf
      rw [hauto m hm f hf]
      simp
    rw [flatMap_congr_mem h2]
    simp
  rw [flatMap_congr_mem h]
  simp

theorem parent_through_empty (reg : Registry) (pm : Model) (pkey : ModelKey)
    (hauto : ∀ f ∈ pm.m2m, f.through_auto_created = true) :
    parent_through reg pm pkey = [] := by
  rw [parent_through]
  have h : ∀ f ∈ pm.m2m,
      (if f.through_auto_created then ([] : List ThroughEntry)
       else
        match getModel reg f.through.app f.through.name with
        | some tm =>
            tm.fields.flatMap fun tf =>
              if tf.is_relation && !(tf.related == some pkey) then
                tm.fields.filterMap fun og =>
                  if og.is_relation && og.related == some pkey && og.name != tf.name then
                    some { model := tm.name, app_name := some tm.app, field_name := og.name }
                  else none
              else []
        | none => []) = ([] : List ThroughEntry) := by
    intro f hf
    rw [hauto f hf]
    simp
  rw [flatMap_congr_mem h]
  simp

theorem nodup_filterMap_ite_pos {α β : Type} (l : List α) (p : α → Bool) (g : α → β)
    (hinj : ∀ x ∈ l, ∀ y ∈ l, g x = g y → x = y) (hl : l.Nodup) :
    (l.filterMap fun a => if p a then some (g a) else none).Nodup := by
  apply @nodup_filterMap_sub α β l _ g ?_ hinj hl
  intro a _ b hb
  by_cases hc : p a = true
  · rw [if_pos hc] at hb
    exact (Option.some.inj hb).symm
  · rw [if_neg hc] at hb
    cases hb

theorem nodup_filterMap_ite_neg {α β : Type} (l : List α) (p : α → Bool) (g : α → β)
    (hinj : ∀ x ∈ l, ∀ y ∈ l, g x = g y → x = y) (hl : l.Nodup) :
    (l.filterMap fun a => if p a then none else some (g a)).Nodup := by
  apply @nodup_filterMap_sub α β l _ g ?_ hinj hl
  intro a _ b hb
  by_cases hc : p a = true
  · rw [if_pos hc] at hb
    cases hb
  · rw [if_neg hc] at hb
    exact (Option.some.inj hb).symm

theorem mem_filterMap_ite_pos {α β : Type} {l : List α} {p : α → Bool} {g : α → β}
    {b : β} :
    b ∈ (l.filterMap fun a => if p a then some (g a) else none) ↔
      ∃ a ∈ l, p a = true ∧ g a = b := by
  constructor
  · intro hb
    rcases List.mem_filterMap.mp hb with ⟨a, ha, hab⟩
    by_cases hc : p a = true
    · rw [if_pos hc] at hab
      exact ⟨a, ha, hc, Option.some.inj hab⟩
    · rw [if_neg hc] at hab
      cases hab
  · rintro ⟨a, ha, hc, hg⟩
    exact List.mem_filterMap.mpr ⟨a, ha, by rw [if_pos hc, hg]⟩

theorem mem_filterMap_ite_neg {α β : Type} {l : List α} {p : α → Bool} {g : α → β}
    {b : β} :
    b ∈ (l.filterMap fun a => if p a then none else some (g a)) ↔
      ∃ a ∈ l, p a = false ∧ g a = b := by
  constructor
  · intro hb
    rcases List.mem_filterMap.mp hb with ⟨a, ha, hab⟩
    by_cases hc : p a = true
    · rw [if_pos hc] at hab
      cases hab
    · rw [if_neg hc] at hab
      exact ⟨a, ha, Bool.not_eq_true _ ▸ hc, Option.some.inj hab⟩
  · rintro ⟨a, ha, hc, hg⟩
    exact List.mem_filterMap.mpr ⟨a, ha, by rw [if_neg (by simp [hc]), hg]⟩

theorem part1_nodup (reg : Registry) (pkey : ModelKey)
    (hkeys : (reg.map fun m => ModelKey.mk m.app m.name).Nodup)
    (hnames : ∀ m ∈ reg, ((m.fields.map RegField.name) ++ (m.m2m.map M2MField.name)).Nodup) :
    (reg.flatMap fun m => m.fields.filterMap fun f =>
        if f.is_relation && f.related == some pkey then
          some (⟨m.name, m.app, f.name⟩ : Rel3)
        else none).Nodup := by
  apply @nodup_flatMap_key Model Rel3 ModelKey reg _
    (fun m => ModelKey.mk m.app m.name) (fun t => ModelKey.mk t.app t.model) hkeys
  · intro m hm
    have hfn : (m.fields.map RegField.name).Nodup :=
      List.Nodup.of_append_left (hnames m hm)
    apply nodup_filterMap_ite_pos
    · intro x hx y hy hxy
      exact List.inj_on_of_nodup_map hfn hx hy (congrArg Rel3.field hxy)
    · exact List.Nodup.of_map RegField.name hfn
  · intro m hm b hb
    rcases mem_filterMap_ite_pos.mp hb with ⟨f, hf, hc, hg⟩
    rw [← hg]

theorem part2_nodup (reg : Registry) (pkey : ModelKey)
    (hkeys : (reg.map fun m => ModelKey.mk m.app m.name).Nodup)
    (hnames : ∀ m ∈ reg, ((m.fields.map RegField.name) ++ (m.m2m.map M2MField.name)).Nodup) :
    (reg.flatMap fun m => m.m2m.filterMap fun f =>
        if f.related == pkey then some (⟨m.name, m.app, f.name⟩ : Rel3) else none).Nodup := by
  apply @nodup_flatMap_key Model Rel3 ModelKey reg _
    (fun m => ModelKey.mk m.app m.name) (fun t => ModelKey.mk t.app t.model) hkeys
  · intro m hm
    have hfn : (m.m2m.map M2MField.name).Nodup :=
      List.Nodup.of_append_right (hnames m hm)
    apply nodup_filterMap_ite_pos
    · intro x hx y hy hxy
      exact List.inj_on_of_nodup_map hfn hx hy (congrArg Rel3.field hxy)
    · exact List.Nodup.of_map M2MField.name hfn
  · intro m hm b hb
    rcases mem_filterMap_ite_pos.mp hb with ⟨f, hf, hc, hg⟩
    rw [← hg]

theorem part3_nodup (app_name parent_model : String) (pm : Model) (pkey : ModelKey)
    (hm2 : (pm.m2m.map M2MField.name).Nodup) :
    (pm.m2m.filterMap fun f =>
        if f.related == pkey then none
        else some (⟨parent_model, app_name, f.name⟩ : Rel3)).Nodup := by
  apply nodup_filterMap_ite_neg
  · intro x hx y hy hxy
    exact List.inj_on_of_nodup_map hm2 hx hy (congrArg Rel3.field hxy)
  · exact List.Nodup.of_map M2MField.name hm2

/-- Claim C2 amended: for a well-formed registry (pairwise distinct
model keys, per-model distinct field and many-to-many names) in which
every many-to-many field uses a framework-auto-created join table and
the target has no many-to-many field pointing at itself, the discovery
output is a partition of the relations touching the target: the combined
relation occurrences of the three lists are duplicate-free and equal the
spec-side enumeration of touching relations (with the explicit-through
list empty).  The counterexample shows the general claim fails as soon
as an explicit through model is present: its foreign-key field at the
target is returned both as a foreign-key relation and as an
explicit-through relation. -/
theorem c2_amended_partition (reg : Registry) (app_name parent_model : String)
    (pm : Model) (fk : List FKEntry) (imp : List ImplicitEntry) (th : List ThroughEntry)
    (hget : getModel reg app_name parent_model = some pm)
    (hfind : find_related_models reg app_name parent_model = some (fk, imp, th))
    (hkeys : (reg.map fun m => ModelKey.mk m.app m.name).Nodup)
    (hnames : ∀ m ∈ reg, ((m.fields.map RegField.name) ++ (m.m2m.map M2MField.name)).Nodup)
    (hauto : ∀ m ∈ reg, ∀ f ∈ m.m2m, f.through_auto_created = true)
    (hself : ∀ f ∈ pm.m2m, f.related ≠ ModelKey.mk pm.app pm.name) :
    relTriples fk imp th = spec_touchingRelations reg app_name parent_model ∧
    (relTriples fk imp th).Nodup := by
  have hpmm : pm ∈ reg := getModel_mem hget
  obtain ⟨hpa, hpn⟩ := getModel_keys hget
  have h := hfind
  simp only [find_related_models, hget, Option.some.injEq, Prod.mk.injEq] at h
  obtain ⟨hfk, himp, hth⟩ := h
  have hauto_pm : ∀ f ∈ pm.m2m, f.through_auto_created = true :=
    fun f hf => hauto pm hpmm f hf
  have hEq : relTriples fk imp th = spec_touchingRelations reg app_name parent_model := by
    subst hfk himp hth
    simp only [spec_touchingRelations, hget, relTriples]
    rw [through_scan_empty reg _ hauto, parent_through_empty reg pm _ hauto_pm]
    rw [List.map_append]
    rw [fk_scan_triples, implicit_scan_triples reg _ hauto,
      parent_implicit_triples app_name parent_model pm _ hauto_pm hself]
    simp
  refine ⟨hEq, ?_⟩
  rw [hEq]
  simp only [spec_touchingRelations, hget]
  refine List.nodup_append.mpr
    ⟨part1_nodup reg _ hkeys hnames,
     List.nodup_append.mpr
       ⟨part2_nodup reg _ hkeys hnames,
        part3_nodup app_name parent_model pm _
          (List.Nodup.of_append_right (hnames pm hpmm)),
        ?_⟩,
     ?_⟩
  · intro t ht2 ht3
    rcases List.mem_flatMap.mp ht2 with ⟨m, hm, hmt⟩
    rcases mem_filterMap_ite_pos.mp hmt with ⟨f, hf, hc, hgf⟩
    rcases mem_filterMap_ite_neg.mp ht3 with ⟨f2, hf2, hc2, hgf2⟩
    have heq : (⟨m.name, m.app, f.name⟩ : Rel3) = ⟨parent_model, app_name, f2.name⟩ :=
      hgf.trans hgf2.symm
    have happ : m.app = app_name := congrArg Rel3.app heq
    have hnm : m.name = parent_model := congrArg Rel3.model heq
    have hkey : ModelKey.mk m.app m.name = ModelKey.mk pm.app pm.name := by
      rw [happ, hnm, hpa, hpn]
    have hmm : m = pm := List.inj_on_of_nodup_map hkeys hm hpmm hkey
    subst hmm
    have hfield : f.name = f2.name := congrArg Rel3.field heq
    have hm2names : (m.m2m.map M2MField.name).Nodup :=
      List.Nodup.of_append_right (hnames m hm)
    have hff : f = f2 := List.inj_on_of_nodup_map hm2names hf hf2 hfield
    rw [hff] at hc
    rw [hc] at hc2
    cases hc2
  · intro t ht1 ht23
    rcases List.mem_flatMap.mp ht1 with ⟨m, hm, hmt⟩
    rcases mem_filterMap_ite_pos.mp hmt with ⟨f, hf, hc, hgf⟩
    rcases List.mem_append.mp ht23 with ht2 | ht3
    · rcases List.mem_flatMap.mp ht2 with ⟨m2, hm2, hmt2⟩
      rcases mem_filterMap_ite_pos.mp hmt2 with ⟨f2, hf2, hc2, hgf2⟩
      have heq : (⟨m.name, m.app, f.name⟩ : Rel3) = ⟨m2.name, m2.app, f2.name⟩ :=
        hgf.trans hgf2.symm
      have happ : m.app = m2.app := congrArg Rel3.app heq
      have hnm : m.name = m2.name := congrArg Rel3.model heq
      have hkey : ModelKey.mk m.app m.name = ModelKey.mk m2.app m2.name := by
        rw [happ, hnm]
      have hmm : m = m2 := List.inj_on_of_nodup_map hkeys hm hm2 hkey
      subst hmm
      have hfield : f.name = f2.name := congrArg Rel3.field heq
      have hdisj := (List.nodup_append.mp (hnames m hm)).2.2
      refine hdisj (List.mem_map_of_mem RegField.name hf) ?_
      rw [show RegField.name f = f2.name from hfield]
      exact List.mem_map_of_mem M2MField.name hf2
    · rcases mem_filterMap_ite_neg.mp ht3 with ⟨f2, hf2, hc2, hgf2⟩
      have heq : (⟨m.name, m.app, f.name⟩ : Rel3) = ⟨parent_model, app_name, f2.name⟩ :=
        hgf.trans hgf2.symm
      have happ : m.app = app_name := congrArg Rel3.app heq
      have hnm : m.name = parent_model := congrArg Rel3.model heq
      have hkey : ModelKey.mk m.app m.name = ModelKey.mk pm.app pm.name := by
        rw [happ, hnm, hpa, hpn]
      have hmm : m = pm := List.inj_on_of_nodup_map hkeys hm hpmm hkey
      subst hmm
      have hfield : f.name = f2.name := congrArg Rel3.field heq
      have hdisj := (List.nodup_append.mp (hnames m hm)).2.2
      refine hdisj (List.mem_map_of_mem RegField.name hf) ?_
      rw [show RegField.name f = f2.name from hfield]
      exact List.mem_map_of_mem M2MField.name hf2

/-- Claim C2 amended witness: the partition evaluated on the registry
whose target Product has one auto-created many-to-many field tags. -/
theorem c2_witness_product :
    relTriples [] [⟨"Product", "store", "tags", some ⟨"store", "Tag"⟩⟩] [] =
      spec_touchingRelations productRegistry "store" "Product" ∧
    (relTriples [] [⟨"Product", "store", "tags", some ⟨"store", "Tag"⟩⟩] []).Nodup := by
  exact c2_amended_partition productRegistry "store" "Product" productModel _ _ _
    rfl rfl (by decide) (by decide) (by decide) (by decide)
